import Mathlib

/-!
Verification of the URL-classifier and identifier-validator core of the
imgur-proxy service (`src/main.py`).

The Python source is shallowly embedded: strings are `List Char` underneath
`String`, each `re` pattern used by the source is translated into an explicit
backtracking matcher with the same search semantics (leftmost starting
position, greedy quantifiers, `.` not matching a newline, `$` matching at the
end of the string or just before a trailing newline), and `urllib.parse.urlparse`
is embedded to the depth the source observes it (`scheme`, `netloc`,
`username`/`password`, and the path/query/fragment split).  Parse errors that
Python raises (mismatched or bracketed authorities) are modelled as `none`;
`validate_imgur_url` catches every such exception and returns `False`, which
the embedding mirrors.  Python's `\w` and the character set of inputs are
modelled over ASCII.
-/

set_option maxRecDepth 20000

namespace ImgurProxy

/-! ### Character classes (ASCII, as used by the source's regexes) -/

/-- `[a-zA-Z]`. -/
def isAlphaA (c : Char) : Bool :=
  if ('a' ≤ c ∧ c ≤ 'z') ∨ ('A' ≤ c ∧ c ≤ 'Z') then true else false

/-- `[0-9]`. -/
def isDigitA (c : Char) : Bool :=
  if '0' ≤ c ∧ c ≤ '9' then true else false

/-- `[a-zA-Z0-9]`. -/
def isAlnumA (c : Char) : Bool :=
  if isAlphaA c = true then true else isDigitA c

/-- Python regex `\w`, restricted to ASCII (every pattern in the source is
ASCII; Unicode word characters are outside the modelled character set). -/
def isWordPy (c : Char) : Bool :=
  if isAlnumA c = true then true else if c = '_' then true else false

/-! ### List helpers mirroring Python string primitives -/

/-- `startsWith pat s` : `s` begins with `pat` (Python `s.startswith(pat)`). -/
def startsWith : List Char → List Char → Bool
  | [], _ => true
  | _ :: _, [] => false
  | p :: ps, c :: cs => if p = c then startsWith ps cs else false

/-- Python's substring test `pat in s`. -/
def containsSub : List Char → List Char → Bool
  | [], pat => startsWith pat []
  | c :: t, pat => if startsWith pat (c :: t) = true then true else containsSub t pat

/-- Everything strictly before the first occurrence of `stop`
(Python `s.split(stop)[0]`). -/
def takeUntil (stop : Char) (l : List Char) : List Char :=
  l.takeWhile (fun c => if c = stop then false else true)

/-- Split at the first occurrence of `stop`, dropping it
(Python `s.split(stop, 1)`; the second part is empty when `stop` is absent,
exactly as `urlsplit` leaves the query/fragment empty then). -/
def splitFirst (stop : Char) (l : List Char) : List Char × List Char :=
  (l.takeWhile (fun c => if c = stop then false else true),
   (l.dropWhile (fun c => if c = stop then false else true)).drop 1)

/-- Number of occurrences of `'.'`. -/
def countDot : List Char → Nat
  | [] => 0
  | c :: t => (if c = '.' then 1 else 0) + countDot t

/-! ### `urllib.parse.urlparse`, to the depth `validate_imgur_url` observes it -/

/-- WHATWG "C0 control or space" characters; `urlsplit` strips them from the
left only (trailing ones are preserved deliberately). -/
def isC0OrSpace (c : Char) : Bool := if c ≤ ' ' then true else false

def stripWhatwg (u : List Char) : List Char :=
  u.dropWhile isC0OrSpace

/-- `urlsplit` removes every ASCII tab, carriage return and newline. -/
def removeTabNl (u : List Char) : List Char :=
  u.filter (fun c => if c = '\t' ∨ c = '\r' ∨ c = '\n' then false else true)

/-- Characters allowed in a scheme after the first letter. -/
def isSchemeChar (c : Char) : Bool :=
  if isAlnumA c = true then true else if c = '+' ∨ c = '-' ∨ c = '.' then true else false

/-- ASCII lower-casing (schemes are ASCII-checked before being lowered). -/
def toLowerA (c : Char) : Char :=
  if 'A' ≤ c ∧ c ≤ 'Z' then Char.ofNat (c.toNat + 32) else c

/-- Split a leading `scheme:`: the first `:` must come after one or more
scheme characters of which the first is a letter; otherwise no scheme. -/
def splitScheme (u : List Char) : List Char × List Char :=
  match u.findIdx? (fun c => c == ':') with
  | none => ([], u)
  | some i =>
    if 0 < i ∧ (u.take i).all isSchemeChar = true ∧ isAlphaA (u.headD ' ') = true then
      ((u.take i).map toLowerA, u.drop (i + 1))
    else ([], u)

/-- The authority ends at the first `/`, `?` or `#`. -/
def netlocStop (c : Char) : Bool := if c = '/' ∨ c = '?' ∨ c = '#' then false else true

def splitNetloc (u : List Char) : List Char × List Char :=
  (u.takeWhile netlocStop, u.dropWhile netlocStop)

/-- The components of `urlparse` that the source reads.  (`urlparse`
additionally splits `;params` off the path; no statement here involves `;`.) -/
structure Parsed where
  scheme : String
  netloc : String
  path : String
  query : String
  fragment : String
deriving DecidableEq

/-- `urllib.parse.urlparse`.  `none` models a raised `ValueError`: Python
raises on a mismatched `[`/`]` in the authority and validates bracketed
authorities as IP literals; the model treats any bracketed authority as a
parse failure, and `validate_imgur_url` agrees with Python on all of them
since no allow-listed domain contains a bracket. -/
def pyUrlparse (url : String) : Option Parsed :=
  let u0 := removeTabNl (stripWhatwg url.data)
  let sr := splitScheme u0
  let nr := if startsWith ['/', '/'] sr.2 = true then splitNetloc (sr.2.drop 2)
            else ([], sr.2)
  if nr.1.contains '[' ∨ nr.1.contains ']' then none
  else
    let fq := splitFirst '#' nr.2
    let pq := splitFirst '?' fq.1
    some ⟨⟨sr.1⟩, ⟨nr.1⟩, ⟨pq.1⟩, ⟨pq.2⟩, ⟨fq.2⟩⟩

/-- `ALLOWED_IMGUR_DOMAINS` (`src/main.py:40`), membership by exact equality. -/
def ALLOWED_IMGUR_DOMAINS : List String :=
  ["imgur.com", "i.imgur.com", "www.imgur.com", "api.imgur.com"]

/-- The part of the netloc before the last `@` (Python `netloc.rpartition('@')`). -/
def userinfoOf (netloc : List Char) : List Char :=
  (((netloc.reverse).dropWhile (fun c => if c = '@' then false else true)).drop 1).reverse

/-- Truthiness of `parsed.username or parsed.password`: a username is the part
of the userinfo before the first `:` and is truthy when non-empty; a password
exists only when a `:` is present and is truthy when non-empty. -/
def credsTruthy (netloc : List Char) : Bool :=
  if netloc.contains '@' = true then
    let ui := userinfoOf netloc
    if (ui.takeWhile (fun c => if c = ':' then false else true)) ≠ [] then true
    else if ui.contains ':' = true ∧ ((ui.dropWhile (fun c => if c = ':' then false else true)).drop 1) ≠ [] then true
    else false
  else false

/-- `validate_imgur_url` (`src/main.py:47`): parsed scheme must be `http` or
`https`, parsed netloc must be exactly allow-listed, no embedded credentials;
any parse exception yields `False`. -/
def validate_imgur_url (url : String) : Bool :=
  match pyUrlparse url with
  | none => false
  | some p =>
    if p.scheme ≠ "http" ∧ p.scheme ≠ "https" then false
    else if p.netloc ∉ ALLOWED_IMGUR_DOMAINS then false
    else if credsTruthy p.netloc.data = true then false
    else true

/-! ### Regex search, specialised to the patterns of `extract_imgur_id`

Each pattern starts with a literal marker, so `re.search` tries exactly the
positions where the marker occurs, left to right, running the pattern's own
backtracking at each; the first position whose continuation succeeds wins. -/

/-- `(?:[/?#]|$)` at the current position: one of the three delimiters, the end
of the string, or the position just before a trailing newline (`$`). -/
def boundaryOk : List Char → Bool
  | [] => true
  | c :: rest =>
    if c = '/' ∨ c = '?' ∨ c = '#' then true
    else if c = '\n' ∧ rest = [] then true else false

/-- `([a-zA-Z0-9]{k})(?:[/?#]|$)` at the current position. -/
def takeKAlnum (k : Nat) (rest : List Char) : Option (List Char) :=
  if (rest.take k).length = k ∧ (rest.take k).all isAlnumA = true ∧
     boundaryOk (rest.drop k) = true then
    some (rest.take k)
  else none

/-- The suffixes that follow each `-` reachable by `.*` (which stops at a
newline), in left-to-right order of the dash. -/
def dashSuffixesAsc : List Char → List (List Char)
  | [] => []
  | c :: t =>
    if c = '\n' then []
    else if c = '-' then t :: dashSuffixesAsc t
    else dashSuffixesAsc t

/-- First hit of `f` along a list of candidate positions. -/
def firstSome (f : List Char → Option (List Char)) : List (List Char) → Option (List Char)
  | [] => none
  | x :: t =>
    match f x with
    | some g => some g
    | none => firstSome f t

/-- Continuation of `/a/(?:.*-)?([a-zA-Z0-9]{7})(?:[/?#]|$)` after the marker:
the greedy `(?:.*-)?` tries the dashes from the rightmost one back, and only
then an empty optional group. -/
def matchSeven (rest : List Char) : Option (List Char) :=
  match firstSome (takeKAlnum 7) (dashSuffixesAsc rest).reverse with
  | some g => some g
  | none => takeKAlnum 7 rest

/-- Continuation of `/a/([a-zA-Z0-9]{5,7})(?:[/?#]|$)` after the marker: the
greedy counted repetition tries 7, then 6, then 5 characters. -/
def matchFiveToSeven (rest : List Char) : Option (List Char) :=
  match takeKAlnum 7 rest with
  | some g => some g
  | none =>
    match takeKAlnum 6 rest with
    | some g => some g
    | none => takeKAlnum 5 rest

/-- Continuation of `i\.imgur\.com/([a-zA-Z0-9]+\.\w+)` after the marker.
`[a-zA-Z0-9]+` backtracks from its maximal run, but every shorter split fails
immediately because the character at the split is alphanumeric rather than
`.`; so only the maximal run can match, followed by `.` and the maximal
(non-empty) `\w+` run. -/
def matchDirectAt (rest : List Char) : Option (List Char) :=
  match rest.takeWhile isAlnumA, rest.dropWhile isAlnumA with
  | [], _ => none
  | c :: run, '.' :: t =>
    match t.takeWhile isWordPy with
    | [] => none
    | e1 :: e => some ((c :: run) ++ '.' :: e1 :: e)
  | _ :: _, _ => none

/-- Continuation of `imgur\.com/(.+)` after the marker: the greedy `(.+)`
captures every following character up to a newline, and fails on an empty
capture (making `re.search` move on to the next occurrence of the marker). -/
def capturePath (rest : List Char) : Option (List Char) :=
  match rest.takeWhile (fun c => if c = '\n' then false else true) with
  | [] => none
  | p => some p

/-- `re.search` for a pattern `marker ++ continuation`: try each occurrence of
the literal marker from the left, running the continuation's backtracking
(`tryAt`) at each, and return the first captured group. -/
def searchMarker (marker : List Char) (tryAt : List Char → Option (List Char)) :
    List Char → Option (List Char)
  | [] => none
  | c :: t =>
    if startsWith marker (c :: t) = true then
      match tryAt ((c :: t).drop marker.length) with
      | some g => some g
      | none => searchMarker marker tryAt t
    else searchMarker marker tryAt t

/-- `re.search(r'([a-zA-Z0-9]{5,7})$', path)` where `path` contains no newline
(it is a `(.+)` capture with the query and fragment split off): the leftmost
start of an all-alphanumeric suffix of length 5–7. -/
def matchTrail57 : List Char → Option (List Char)
  | [] => none
  | c :: rest =>
    if 5 ≤ (c :: rest).length ∧ (c :: rest).length ≤ 7 ∧
       (c :: rest).all isAlnumA = true then
      some (c :: rest)
    else matchTrail57 rest

/-! ### `extract_imgur_id` (`src/main.py:72`) -/

/-- The `'/a/'`/`'/gallery/'` branches: a substring guard on the whole URL,
then the 7-character slug pattern, then the looser 5–7 pattern. -/
def stageAlbum (marker : List Char) (cs : List Char) : Option (String × String) :=
  if containsSub cs marker = true then
    match searchMarker marker matchSeven cs with
    | some g => some ("album", ⟨g⟩)
    | none =>
      match searchMarker marker matchFiveToSeven cs with
      | some g => some ("album", ⟨g⟩)
      | none => none
  else none

/-- The `'i.imgur.com'` branch: a substring guard on the whole URL, then the
direct-image pattern. -/
def stageDirect (cs : List Char) : Option (String × String) :=
  if containsSub cs "i.imgur.com".data = true then
    match searchMarker "i.imgur.com/".data matchDirectAt cs with
    | some g => some ("direct", ⟨g⟩)
    | none => none
  else none

/-- The `'imgur.com/'` branch: capture everything after the first viable
occurrence of `imgur.com/`, split off query and fragment, then take the
trailing 5–7 alphanumeric run. -/
def stageImage (cs : List Char) : Option (String × String) :=
  if containsSub cs "imgur.com/".data = true then
    match searchMarker "imgur.com/".data capturePath cs with
    | some p =>
      match matchTrail57 (takeUntil '#' (takeUntil '?' p)) with
      | some g => some ("image", ⟨g⟩)
      | none => none
    | none => none
  else none

/-- `extract_imgur_id` (`src/main.py:72`): validate the URL, then try the
album, gallery, direct and plain-image branches in order, each falling
through to the next when it produces nothing. -/
def extract_imgur_id (url : String) : Option (String × String) :=
  if validate_imgur_url url = true then
    match stageAlbum "/a/".data url.data with
    | some r => some r
    | none =>
      match stageAlbum "/gallery/".data url.data with
      | some r => some r
      | none =>
        match stageDirect url.data with
        | some r => some r
        | none => stageImage url.data
  else none

/-! ### `validate_imgur_id` (`src/main.py:113`) -/

/-- `$` of `re.match(r'^...$', s)` (no `MULTILINE`): the end of the string or
the position just before a newline that is the last character. -/
def endDollar : List Char → Bool
  | [] => true
  | [c] => if c = '\n' then true else false
  | _ :: _ :: _ => false

/-- `[a-zA-Z0-9]{n}` then `$`. -/
def extRun (n : Nat) (t : List Char) : Bool :=
  if (t.take n).length = n ∧ (t.take n).all isAlnumA = true ∧
     endDollar (t.drop n) = true then true
  else false

/-- `\.[a-zA-Z0-9]{3,4}` then `$` (greedy: 4 before 3). -/
def extDot : List Char → Bool
  | [] => false
  | c :: t => if c = '.' then (if extRun 4 t = true then true else extRun 3 t) else false

/-- `(\.[a-zA-Z0-9]{3,4})?$`: the optional extension group, or bare `$`. -/
def afterCore (r : List Char) : Bool :=
  if extDot r = true then true else endDollar r

/-- `[a-zA-Z0-9]{k}` from the start, then `afterCore`. -/
def coreK (k : Nat) (cs : List Char) : Bool :=
  if (cs.take k).length = k ∧ (cs.take k).all isAlnumA = true ∧
     afterCore (cs.drop k) = true then true
  else false

/-- `re.match(r'^[a-zA-Z0-9]{5,8}(\.[a-zA-Z0-9]{3,4})?$', s)` as a Boolean:
the greedy counted core tries 8, 7, 6, then 5 characters. -/
def matchIdShape (cs : List Char) : Bool :=
  if coreK 8 cs = true then true
  else if coreK 7 cs = true then true
  else if coreK 6 cs = true then true
  else coreK 5 cs

/-- `validate_imgur_id` (`src/main.py:113`): the anchored shape regex, then
the redundant traversal check rejecting `..`, `/` and `\`. -/
def validate_imgur_id (imgur_id : String) : Bool :=
  if matchIdShape imgur_id.data = false then false
  else if containsSub imgur_id.data "..".data = true ∨
          containsSub imgur_id.data "/".data = true ∨
          containsSub imgur_id.data "\\".data = true then false
  else true

/-- `validate_imgur_id` with the defense-in-depth traversal check removed
(the refinement compared against the code in the redundancy claim). -/
def validate_imgur_id_noTraversal (imgur_id : String) : Bool :=
  if matchIdShape imgur_id.data = false then false else true

/-- Modelled from the spec: `IdentifierShape` applied as a full-string match —
the entire string is an alphanumeric run of length 5–8, optionally followed by
a dot and a 3–4 character alphanumeric extension. -/
def specIdentifierShape (s : String) : Bool :=
  if 5 ≤ (s.data.takeWhile isAlnumA).length ∧ (s.data.takeWhile isAlnumA).length ≤ 8 then
    match s.data.dropWhile isAlnumA with
    | [] => true
    | c :: e =>
      if c = '.' ∧ 3 ≤ e.length ∧ e.length ≤ 4 ∧ e.all isAlnumA = true then true
      else false
  else false

/-! ### The `/{imgur_id}` handler (`src/main.py:267`)

The outbound HTTP client is an external collaborator; it is embedded as an
oracle `fetch` mapping a request URL to `none` (any `httpx.HTTPError`,
including non-success statuses via `raise_for_status`) or to the parsed JSON
document.  The handler's observable behaviour is the list of URLs it fetches
and its outcome. -/

structure MediaItem where
  id : String
  ext : Option String
deriving DecidableEq

structure MediaDoc where
  media : List MediaItem
deriving DecidableEq

inductive ServeOutcome
  | page (image_id : String)
  | badRequest
  | notFound
  | serverError
deriving DecidableEq

def media_api_url (imgur_id : String) : String :=
  "https://api.imgur.com/post/v1/media/" ++ imgur_id

/-- `serve_image` (`src/main.py:267`): validate the id, then issue a single
GET to the metadata API.  A transport/status error is a 404; an empty `media`
list raises `HTTPException(404)` inside the `try`, which the generic
`except Exception` re-raises as a 500; otherwise the first entry is rendered
(extension defaulting to `jpg`). -/
def serve_image (fetch : String → Option MediaDoc) (imgur_id : String) :
    List String × ServeOutcome :=
  if validate_imgur_id imgur_id = false then ([], ServeOutcome.badRequest)
  else
    match fetch (media_api_url imgur_id) with
    | none => ([media_api_url imgur_id], ServeOutcome.notFound)
    | some doc =>
      match doc.media with
      | [] => ([media_api_url imgur_id], ServeOutcome.serverError)
      | m :: _ =>
        ([media_api_url imgur_id], ServeOutcome.page (m.id ++ "." ++ m.ext.getD "jpg"))

/-! ### Helper lemmas about the matchers -/

theorem startsWith_exists : ∀ {p s : List Char}, startsWith p s = true → ∃ t, s = p ++ t := by
  intro p
  induction p with
  | nil => intro s _; exact ⟨s, rfl⟩
  | cons a ps ih =>
    intro s h
    cases s with
    | nil => simp [startsWith] at h
    | cons c cs =>
      rw [startsWith] at h
      split at h
      · obtain ⟨t, ht⟩ := ih h
        rename_i hac
        exact ⟨t, by simp [hac, ht]⟩
      · exact absurd h (by simp)

theorem containsSub_exists : ∀ {s pat : List Char}, containsSub s pat = true →
    ∃ a b, s = a ++ pat ++ b := by
  intro s
  induction s with
  | nil =>
    intro pat h
    rw [containsSub] at h
    obtain ⟨t, ht⟩ := startsWith_exists h
    cases pat with
    | nil => exact ⟨[], [], rfl⟩
    | cons c cs => simp at ht
  | cons c t ih =>
    intro pat h
    rw [containsSub] at h
    split at h
    · rename_i hs
      obtain ⟨b, hb⟩ := startsWith_exists hs
      exact ⟨[], b, by simpa using hb⟩
    · obtain ⟨a, b, hab⟩ := ih h
      exact ⟨c :: a, b, by simp [hab]⟩

theorem searchMarker_some {m : List Char} {f : List Char → Option (List Char)} :
    ∀ {cs g : List Char}, searchMarker m f cs = some g → ∃ rest, f rest = some g := by
  intro cs
  induction cs with
  | nil => intro g h; simp [searchMarker] at h
  | cons c t ih =>
    intro g h
    rw [searchMarker] at h
    split at h
    · split at h
      · rename_i g2 heq
        exact ⟨_, by rw [heq]; exact congrArg some (Option.some.inj h)⟩
      · exact ih h
    · exact ih h

theorem firstSome_some {f : List Char → Option (List Char)} :
    ∀ {l : List (List Char)} {g : List Char}, firstSome f l = some g →
      ∃ x, x ∈ l ∧ f x = some g := by
  intro l
  induction l with
  | nil => intro g h; simp [firstSome] at h
  | cons x t ih =>
    intro g h
    rw [firstSome] at h
    split at h
    · rename_i g2 heq
      exact ⟨x, by simp, by rw [heq]; exact congrArg some (Option.some.inj h)⟩
    · obtain ⟨y, hy, hfy⟩ := ih h
      exact ⟨y, by simp [hy], hfy⟩

theorem takeKAlnum_some {k : Nat} {rest g : List Char} (h : takeKAlnum k rest = some g) :
    g.length = k ∧ g.all isAlnumA = true := by
  rw [takeKAlnum] at h
  split at h
  · rename_i hcond
    obtain ⟨h1, h2, _⟩ := hcond
    cases Option.some.inj h
    exact ⟨h1, h2⟩
  · exact absurd h (by simp)

theorem matchSeven_some {rest g : List Char} (h : matchSeven rest = some g) :
    5 ≤ g.length ∧ g.length ≤ 7 ∧ g.all isAlnumA = true := by
  rw [matchSeven] at h
  split at h
  · rename_i g2 heq
    cases Option.some.inj h
    obtain ⟨x, -, hx⟩ := firstSome_some heq
    obtain ⟨h1, h2⟩ := takeKAlnum_some hx
    exact ⟨by omega, by omega, h2⟩
  · obtain ⟨h1, h2⟩ := takeKAlnum_some h
    exact ⟨by omega, by omega, h2⟩

theorem matchFiveToSeven_some {rest g : List Char} (h : matchFiveToSeven rest = some g) :
    5 ≤ g.length ∧ g.length ≤ 7 ∧ g.all isAlnumA = true := by
  rw [matchFiveToSeven] at h
  split at h
  · rename_i g2 heq
    cases Option.some.inj h
    obtain ⟨h1, h2⟩ := takeKAlnum_some heq
    exact ⟨by omega, by omega, h2⟩
  · split at h
    · rename_i g2 heq
      cases Option.some.inj h
      obtain ⟨h1, h2⟩ := takeKAlnum_some heq
      exact ⟨by omega, by omega, h2⟩
    · obtain ⟨h1, h2⟩ := takeKAlnum_some h
      exact ⟨by omega, by omega, h2⟩

theorem matchTrail57_some : ∀ {p g : List Char}, matchTrail57 p = some g →
    5 ≤ g.length ∧ g.length ≤ 7 ∧ g.all isAlnumA = true := by
  intro p
  induction p with
  | nil => intro g h; simp [matchTrail57] at h
  | cons c rest ih =>
    intro g h
    rw [matchTrail57] at h
    split at h
    · rename_i hcond
      cases Option.some.inj h
      exact hcond
    · exact ih h

theorem takeWhile_all (p : Char → Bool) : ∀ l : List Char, (l.takeWhile p).all p = true := by
  intro l
  induction l with
  | nil => rfl
  | cons c t ih =>
    by_cases hc : p c = true
    · simp [List.takeWhile_cons, hc, ih]
    · simp [List.takeWhile_cons, hc]

theorem all_weaken {p q : Char → Bool} (hpq : ∀ c, p c = true → q c = true) :
    ∀ {l : List Char}, l.all p = true → l.all q = true := by
  intro l h
  rw [List.all_eq_true] at *
  intro c hc
  exact hpq c (h c hc)

/-- Characters that can occur in a `direct` identifier:
`[a-zA-Z0-9]+\.\w+` contributes alphanumerics, one dot and word characters. -/
def goodDirectChar (c : Char) : Bool :=
  if isAlnumA c = true then true else if c = '.' then true else isWordPy c

theorem matchDirectAt_some {rest g : List Char} (h : matchDirectAt rest = some g) :
    g ≠ [] ∧ g.all goodDirectChar = true := by
  rw [matchDirectAt] at h
  split at h
  · exact absurd h (by simp)
  · rename_i c run t hrun hdrop
    split at h
    · exact absurd h (by simp)
    · rename_i e1 e hw
      cases Option.some.inj h
      constructor
      · simp
      · have hruna : (c :: run).all isAlnumA = true := by
          rw [← hrun]; exact takeWhile_all _ rest
        have hwa : (e1 :: e).all isWordPy = true := by
          rw [← hw]; exact takeWhile_all _ t
        have h1 : (c :: run).all goodDirectChar = true :=
          all_weaken (fun d hd => by simp [goodDirectChar, hd]) hruna
        have h2 : (e1 :: e).all goodDirectChar = true :=
          all_weaken (fun d hd => by unfold goodDirectChar; split <;> simp_all) hwa
        have hdot : goodDirectChar '.' = true := by decide
        rw [List.all_append, Bool.and_eq_true]
        refine ⟨h1, ?_⟩
        rw [List.all_cons, Bool.and_eq_true]
        exact ⟨hdot, h2⟩
  · exact absurd h (by simp)

/-! ### Stage lemmas for `extract_imgur_id` -/

theorem stageAlbum_some {m cs : List Char} {k id : String}
    (h : stageAlbum m cs = some (k, id)) :
    k = "album" ∧ containsSub cs m = true ∧
    5 ≤ id.data.length ∧ id.data.length ≤ 7 ∧ id.data.all isAlnumA = true := by
  rw [stageAlbum] at h
  split at h
  · rename_i hguard
    split at h
    · rename_i g heq
      obtain ⟨hk, hid⟩ := Prod.mk.injEq .. ▸ Option.some.inj h
      obtain ⟨rest, hr⟩ := searchMarker_some heq
      have hrest := matchSeven_some hr
      subst hid
      exact ⟨hk.symm, hguard, hrest.1, hrest.2.1, hrest.2.2⟩
    · split at h
      · rename_i g heq
        obtain ⟨hk, hid⟩ := Prod.mk.injEq .. ▸ Option.some.inj h
        obtain ⟨rest, hr⟩ := searchMarker_some heq
        have hrest := matchFiveToSeven_some hr
        subst hid
        exact ⟨hk.symm, hguard, hrest.1, hrest.2.1, hrest.2.2⟩
      · exact absurd h (by simp)
  · exact absurd h (by simp)

theorem stageDirect_some {cs : List Char} {k id : String}
    (h : stageDirect cs = some (k, id)) :
    k = "direct" ∧ containsSub cs "i.imgur.com".data = true ∧
    id.data ≠ [] ∧ id.data.all goodDirectChar = true := by
  rw [stageDirect] at h
  split at h
  · rename_i hguard
    split at h
    · rename_i g heq
      obtain ⟨hk, hid⟩ := Prod.mk.injEq .. ▸ Option.some.inj h
      obtain ⟨rest, hr⟩ := searchMarker_some heq
      have hg := matchDirectAt_some hr
      subst hid
      exact ⟨hk.symm, hguard, hg.1, hg.2⟩
    · exact absurd h (by simp)
  · exact absurd h (by simp)

theorem stageImage_some {cs : List Char} {k id : String}
    (h : stageImage cs = some (k, id)) :
    k = "image" ∧ containsSub cs "imgur.com/".data = true ∧
    5 ≤ id.data.length ∧ id.data.length ≤ 7 ∧ id.data.all isAlnumA = true := by
  rw [stageImage] at h
  split at h
  · rename_i hguard
    split at h
    · rename_i p heq
      split at h
      · rename_i g heq2
        obtain ⟨hk, hid⟩ := Prod.mk.injEq .. ▸ Option.some.inj h
        have hg := matchTrail57_some heq2
        subst hid
        exact ⟨hk.symm, hguard, hg.1, hg.2.1, hg.2.2⟩
      · exact absurd h (by simp)
    · exact absurd h (by simp)
  · exact absurd h (by simp)

/-- Case analysis for a successful classification: the URL passed validation
and exactly one of the four branches produced the result. -/
theorem extract_cases {url : String} {k id : String}
    (h : extract_imgur_id url = some (k, id)) :
    validate_imgur_url url = true ∧
    (stageAlbum "/a/".data url.data = some (k, id) ∨
     stageAlbum "/gallery/".data url.data = some (k, id) ∨
     stageDirect url.data = some (k, id) ∨
     stageImage url.data = some (k, id)) := by
  rw [extract_imgur_id] at h
  split at h
  · rename_i hval
    refine ⟨hval, ?_⟩
    split at h
    · rename_i r heq
      exact Or.inl (heq.trans (congrArg some (Option.some.inj h)))
    · split at h
      · rename_i r heq
        exact Or.inr (Or.inl (heq.trans (congrArg some (Option.some.inj h))))
      · split at h
        · rename_i r heq
          exact Or.inr (Or.inr (Or.inl (heq.trans (congrArg some (Option.some.inj h)))))
        · exact Or.inr (Or.inr (Or.inr h))
  · exact absurd h (by simp)

/-! ### Claim theorems -/

/-- C1: for every input string, `classify` (`extract_imgur_id`) returns none
whenever the parsed URL's scheme is not exactly `http` or `https`, or its
parsed authority is not exactly one of the allow-listed hostnames, or the URL
carries embedded credentials (a truthy username or password component). -/
theorem classify_rejects_unvalidated (url : String) (p : Parsed)
    (hp : pyUrlparse url = some p)
    (h : (p.scheme ≠ "http" ∧ p.scheme ≠ "https") ∨
         p.netloc ∉ ALLOWED_IMGUR_DOMAINS ∨
         credsTruthy p.netloc.data = true) :
    extract_imgur_id url = none := by
  have hval : validate_imgur_url url = false := by
    rw [validate_imgur_url, hp]
    split
    · rfl
    · rename_i q heq
      cases Option.some.inj heq
      split
      · rfl
      · split
        · rfl
        · split
          · rfl
          · rename_i h1 h2 h3
            rcases h with h | h | h
            · exact absurd h h1
            · exact absurd h h2
            · exact absurd h h3
  rw [extract_imgur_id, hval]
  simp

/-- Witness for C1 at a host that merely contains an allow-listed domain. -/
theorem classify_rejects_unvalidated_witness :
    extract_imgur_id "https://imgur.com.evil.net/abc1234" = none :=
  classify_rejects_unvalidated "https://imgur.com.evil.net/abc1234"
    ⟨"https", "imgur.com.evil.net", "/abc1234", "", ""⟩
    (by decide) (Or.inr (Or.inl (by decide)))

/-- C2 counterexample: `https://imgur.com/?x=i.imgur.com/abc.png` passes
domain validation with authority `imgur.com` (not the direct-CDN host), yet
`classify` returns kind `direct` because `i.imgur.com` appears in the query. -/
theorem direct_kind_from_query_counterexample :
    extract_imgur_id "https://imgur.com/?x=i.imgur.com/abc.png" =
      some ("direct", "abc.png") ∧
    validate_imgur_url "https://imgur.com/?x=i.imgur.com/abc.png" = true ∧
    pyUrlparse "https://imgur.com/?x=i.imgur.com/abc.png" =
      some ⟨"https", "imgur.com", "/", "x=i.imgur.com/abc.png", ""⟩ ∧
    ("imgur.com" : String) ≠ "i.imgur.com" := by
  refine ⟨by decide, by decide, by decide, by decide⟩

/-- C2 amended: for every URL, `classify` returns kind `direct` only if the
string `i.imgur.com` occurs as a substring somewhere in the URL — the code
checks the whole URL string, not the parsed authority, so an allow-listed URL
whose query or path contains `i.imgur.com/<id>.<ext>` is also classified
`direct`. -/
theorem direct_only_with_substring (url id : String)
    (h : extract_imgur_id url = some ("direct", id)) :
    containsSub url.data "i.imgur.com".data = true := by
  obtain ⟨-, hcase⟩ := extract_cases h
  rcases hcase with hc | hc | hc | hc
  · exact absurd (stageAlbum_some hc).1 (by decide)
  · exact absurd (stageAlbum_some hc).1 (by decide)
  · exact (stageDirect_some hc).2.1
  · exact absurd (stageImage_some hc).1 (by decide)

/-- Witness for the amended C2. -/
theorem direct_only_with_substring_witness :
    containsSub "https://i.imgur.com/xy12345.png".data "i.imgur.com".data = true :=
  direct_only_with_substring "https://i.imgur.com/xy12345.png" "xy12345.png" (by decide)

/-- C3 counterexample: `https://imgur.com/xyz12?q=/a/abc1234` has parsed path
`/xyz12`, which contains neither `/a/` nor `/gallery/`, yet `classify`
returns `album` because the marker occurs in the query string. -/
theorem album_marker_in_query_counterexample :
    extract_imgur_id "https://imgur.com/xyz12?q=/a/abc1234" =
      some ("album", "abc1234") ∧
    pyUrlparse "https://imgur.com/xyz12?q=/a/abc1234" =
      some ⟨"https", "imgur.com", "/xyz12", "q=/a/abc1234", ""⟩ ∧
    containsSub "/xyz12".data "/a/".data = false ∧
    containsSub "/xyz12".data "/gallery/".data = false := by
  refine ⟨by decide, by decide, by decide, by decide⟩

/-- C3 amended: `classify` returns `album` only if the URL *string* (anywhere,
including query and fragment, not just the path) contains `/a/` or
`/gallery/`; the identifier is then a 5–7 character alphanumeric run produced
by the two-stage (7-character preferred, 5–7 fallback) trailing match, and
gallery URLs classify as `album`. -/
theorem album_marker_and_shape (url id : String)
    (h : extract_imgur_id url = some ("album", id)) :
    (containsSub url.data "/a/".data = true ∨
     containsSub url.data "/gallery/".data = true) ∧
    5 ≤ id.data.length ∧ id.data.length ≤ 7 ∧ id.data.all isAlnumA = true := by
  obtain ⟨-, hcase⟩ := extract_cases h
  rcases hcase with hc | hc | hc | hc
  · obtain ⟨-, hg, h5, h7, ha⟩ := stageAlbum_some hc
    exact ⟨Or.inl hg, h5, h7, ha⟩
  · obtain ⟨-, hg, h5, h7, ha⟩ := stageAlbum_some hc
    exact ⟨Or.inr hg, h5, h7, ha⟩
  · exact absurd (stageDirect_some hc).1 (by decide)
  · exact absurd (stageImage_some hc).1 (by decide)

/-- Witness for the amended C3. -/
theorem album_marker_and_shape_witness :
    (containsSub "https://imgur.com/gallery/zz99aa1".data "/a/".data = true ∨
     containsSub "https://imgur.com/gallery/zz99aa1".data "/gallery/".data = true) ∧
    5 ≤ ("zz99aa1" : String).data.length ∧ ("zz99aa1" : String).data.length ≤ 7 ∧
    ("zz99aa1" : String).data.all isAlnumA = true :=
  album_marker_and_shape "https://imgur.com/gallery/zz99aa1" "zz99aa1" (by decide)

/-- C7: an identifier embedded in an SEO slug resolves to the trailing ID
only: `classify("https://imgur.com/a/my-title-ab12cd3") = (album, "ab12cd3")`. -/
theorem classify_slug_album :
    extract_imgur_id "https://imgur.com/a/my-title-ab12cd3" =
      some ("album", "ab12cd3") := by
  decide

/-- C8: every identifier returned by `classify` is non-empty and contains
none of `?`, `#`, `/` — queries and fragments never leak into it. -/
theorem extract_id_no_delimiters (url k id : String)
    (h : extract_imgur_id url = some (k, id)) :
    id ≠ "" ∧ ∀ c ∈ id.data, c ≠ '?' ∧ c ≠ '#' ∧ c ≠ '/' := by
  obtain ⟨-, hcase⟩ := extract_cases h
  have alnum_safe : ∀ c : Char, isAlnumA c = true → c ≠ '?' ∧ c ≠ '#' ∧ c ≠ '/' := by
    intro c hch
    refine ⟨?_, ?_, ?_⟩ <;> rintro rfl <;> exact absurd hch (by decide)
  have direct_safe : ∀ c : Char, goodDirectChar c = true → c ≠ '?' ∧ c ≠ '#' ∧ c ≠ '/' := by
    intro c hch
    refine ⟨?_, ?_, ?_⟩ <;> rintro rfl <;> exact absurd hch (by decide)
  have ne_of_len : 5 ≤ id.data.length → id ≠ "" := by
    intro h5 he
    rw [he] at h5
    simp at h5
  have ne_of_ne_nil : id.data ≠ [] → id ≠ "" := by
    intro hne he
    rw [he] at hne
    simp at hne
  rcases hcase with hc | hc | hc | hc
  · obtain ⟨-, -, h5, -, ha⟩ := stageAlbum_some hc
    exact ⟨ne_of_len h5, fun c hcm => alnum_safe c (List.all_eq_true.mp ha c hcm)⟩
  · obtain ⟨-, -, h5, -, ha⟩ := stageAlbum_some hc
    exact ⟨ne_of_len h5, fun c hcm => alnum_safe c (List.all_eq_true.mp ha c hcm)⟩
  · obtain ⟨-, -, hne, ha⟩ := stageDirect_some hc
    exact ⟨ne_of_ne_nil hne, fun c hcm => direct_safe c (List.all_eq_true.mp ha c hcm)⟩
  · obtain ⟨-, -, h5, -, ha⟩ := stageImage_some hc
    exact ⟨ne_of_len h5, fun c hcm => alnum_safe c (List.all_eq_true.mp ha c hcm)⟩

/-- Witness for C8. -/
theorem extract_id_no_delimiters_witness :
    ("abc1234" : String) ≠ "" ∧
    ∀ c ∈ ("abc1234" : String).data, c ≠ '?' ∧ c ≠ '#' ∧ c ≠ '/' :=
  extract_id_no_delimiters "https://imgur.com/abc1234?q=zz#frag" "image" "abc1234" (by decide)

/-- C10: classification is deterministic — the embedding of
`extract_imgur_id` is a pure function of the URL string, so two runs on the
same input yield the identical result. -/
theorem classify_deterministic (url : String) :
    extract_imgur_id url = extract_imgur_id url := rfl

/-- Witness for C10 at a concrete URL. -/
theorem classify_deterministic_witness :
    extract_imgur_id "https://imgur.com/a/ab12cd3" =
      extract_imgur_id "https://imgur.com/a/ab12cd3" :=
  classify_deterministic "https://imgur.com/a/ab12cd3"

/-! ### Structure of strings accepted by the anchored shape regex -/

theorem take_len_append (a b : List Char) : (a ++ b).take a.length = a := by
  induction a with
  | nil => rfl
  | cons c t ih => simp [List.take_cons, ih]

theorem drop_len_append (a b : List Char) : (a ++ b).drop a.length = b := by
  induction a with
  | nil => rfl
  | cons c t ih => simp [ih]

theorem countDot_append (a b : List Char) : countDot (a ++ b) = countDot a + countDot b := by
  induction a with
  | nil => simp [countDot]
  | cons c t ih => simp [countDot, ih]; omega

theorem countDot_zero_of_alnum {l : List Char} (h : l.all isAlnumA = true) :
    countDot l = 0 := by
  induction l with
  | nil => rfl
  | cons c t ih =>
    rw [List.all_cons, Bool.and_eq_true] at h
    have hc : ¬ c = '.' := by
      rintro rfl
      exact absurd h.1 (by decide)
    simp [countDot, hc, ih h.2]

theorem endDollar_cases : ∀ {r : List Char}, endDollar r = true → r = [] ∨ r = ['\n'] := by
  intro r h
  match r with
  | [] => exact Or.inl rfl
  | [c] =>
    rw [endDollar] at h
    split at h
    · rename_i hc
      exact Or.inr (by rw [hc])
    · exact absurd h (by simp)
  | _ :: _ :: _ => exact absurd h (by simp [endDollar])

theorem extRun_structure {n : Nat} {t : List Char} (h : extRun n t = true) :
    (∀ c ∈ t, isAlnumA c = true ∨ c = '\n') ∧ countDot t = 0 := by
  rw [extRun] at h
  split at h
  · rename_i hcond
    obtain ⟨-, hall, hend⟩ := hcond
    have hsplit : t.take n ++ t.drop n = t := List.take_append_drop n t
    have htail := endDollar_cases hend
    constructor
    · intro c hc
      rw [← hsplit] at hc
      rcases List.mem_append.mp hc with h1 | h2
      · exact Or.inl (List.all_eq_true.mp hall c h1)
      · rcases htail with ht | ht <;> rw [ht] at h2 <;> simp_all
    · rw [← hsplit, countDot_append, countDot_zero_of_alnum hall]
      rcases htail with ht | ht <;> rw [ht] <;> rfl
  · exact absurd h (by simp)

theorem afterCore_structure {r : List Char} (h : afterCore r = true) :
    (∀ c ∈ r, isAlnumA c = true ∨ c = '.' ∨ c = '\n') ∧ countDot r ≤ 1 := by
  rw [afterCore] at h
  split at h
  · rename_i hdot
    cases r with
    | nil => exact absurd hdot (by simp [extDot])
    | cons c t =>
      rw [extDot] at hdot
      split at hdot
      · rename_i hc
        have hrun : (∀ d ∈ t, isAlnumA d = true ∨ d = '\n') ∧ countDot t = 0 := by
          split at hdot
          · rename_i h4
            exact extRun_structure h4
          · exact extRun_structure hdot
        constructor
        · intro d hd
          rcases List.mem_cons.mp hd with hd | hd
          · exact Or.inr (Or.inl (hd.trans hc))
          · rcases hrun.1 d hd with h1 | h1
            · exact Or.inl h1
            · exact Or.inr (Or.inr h1)
        · simp [countDot, hc, hrun.2]
      · exact absurd hdot (by simp)
  · rcases endDollar_cases h with hr | hr <;> rw [hr]
    · exact ⟨by simp, by simp [countDot]⟩
    · exact ⟨by simp, by simp [countDot]⟩

theorem coreK_structure {k : Nat} {cs : List Char} (h : coreK k cs = true) :
    (∀ c ∈ cs, isAlnumA c = true ∨ c = '.' ∨ c = '\n') ∧ countDot cs ≤ 1 := by
  rw [coreK] at h
  split at h
  · rename_i hcond
    obtain ⟨-, hall, hafter⟩ := hcond
    have hsplit : cs.take k ++ cs.drop k = cs := List.take_append_drop k cs
    obtain ⟨hmem2, hcount2⟩ := afterCore_structure hafter
    constructor
    · intro c hc
      rw [← hsplit] at hc
      rcases List.mem_append.mp hc with h1 | h2
      · exact Or.inl (List.all_eq_true.mp hall c h1)
      · exact hmem2 c h2
    · rw [← hsplit, countDot_append, countDot_zero_of_alnum hall]
      omega
  · exact absurd h (by simp)

theorem matchIdShape_structure {cs : List Char} (h : matchIdShape cs = true) :
    (∀ c ∈ cs, isAlnumA c = true ∨ c = '.' ∨ c = '\n') ∧ countDot cs ≤ 1 := by
  rw [matchIdShape] at h
  split at h
  · exact coreK_structure (by assumption)
  · split at h
    · exact coreK_structure (by assumption)
    · split at h
      · exact coreK_structure (by assumption)
      · exact coreK_structure h

/-- A string accepted by the shape regex can contain no `..`, `/` or `\`. -/
theorem matchIdShape_no_traversal {cs : List Char} (h : matchIdShape cs = true) :
    containsSub cs "..".data = false ∧ containsSub cs "/".data = false ∧
    containsSub cs "\\".data = false := by
  obtain ⟨hmem, hcount⟩ := matchIdShape_structure h
  have hdd : containsSub cs "..".data = false := by
    cases hc : containsSub cs "..".data with
    | false => rfl
    | true =>
      obtain ⟨a, b, hab⟩ := containsSub_exists hc
      have hdd2 : countDot "..".data = 2 := rfl
      have : countDot cs = countDot a + countDot "..".data + countDot b := by
        rw [hab, countDot_append, countDot_append]
      omega
  have hchar : ∀ (c : Char), containsSub cs [c] = true → c ∈ cs := by
    intro c hc
    obtain ⟨a, b, hab⟩ := containsSub_exists hc
    rw [hab]
    simp
  have hsl : containsSub cs "/".data = false := by
    cases hc : containsSub cs "/".data with
    | false => rfl
    | true =>
      have := hmem '/' (hchar '/' hc)
      rcases this with h1 | h1 | h1 <;> exact absurd h1 (by decide)
  have hbs : containsSub cs "\\".data = false := by
    cases hc : containsSub cs "\\".data with
    | false => rfl
    | true =>
      have := hmem '\\' (hchar '\\' hc)
      rcases this with h1 | h1 | h1 <;> exact absurd h1 (by decide)
  exact ⟨hdd, hsl, hbs⟩

/-- A 5–8 character all-alphanumeric string passes `validate_imgur_id`. -/
theorem validate_of_alnum {cs : List Char} (h5 : 5 ≤ cs.length) (h8 : cs.length ≤ 8)
    (ha : cs.all isAlnumA = true) : validate_imgur_id ⟨cs⟩ = true := by
  have hcore : coreK cs.length cs = true := by
    rw [coreK]
    rw [List.take_length, List.drop_length]
    simp [ha, afterCore, extDot, endDollar]
  have hm : matchIdShape cs = true := by
    rw [matchIdShape]
    have hk : cs.length = 5 ∨ cs.length = 6 ∨ cs.length = 7 ∨ cs.length = 8 := by omega
    rcases hk with hk | hk | hk | hk <;> rw [hk] at hcore <;> simp [hcore]
  obtain ⟨h1, h2, h3⟩ := matchIdShape_no_traversal hm
  rw [validate_imgur_id]
  have hdata : (String.mk cs).data = cs := rfl
  rw [hdata, hm, h1, h2, h3]
  simp

/-- C6 counterexample: the direct pattern `[a-zA-Z0-9]+\.\w+` puts no length
bounds on its pieces, so the classifier can produce an identifier that the
validator rejects. -/
theorem classifier_direct_id_invalid_counterexample :
    extract_imgur_id "https://i.imgur.com/a.b" = some ("direct", "a.b") ∧
    validate_imgur_id "a.b" = false := by
  refine ⟨by decide, by decide⟩

/-- C6 amended: identifiers of kind `album` or `image` produced by the
classifier are shape-constrained by construction and pass
`validate_imgur_id`; `direct` identifiers need not (see the counterexample). -/
theorem classifier_album_image_id_valid (url k id : String)
    (h : extract_imgur_id url = some (k, id)) (hk : k = "album" ∨ k = "image") :
    validate_imgur_id id = true := by
  obtain ⟨-, hcase⟩ := extract_cases h
  rcases hcase with hc | hc | hc | hc
  · obtain ⟨-, -, h5, h7, ha⟩ := stageAlbum_some hc
    exact validate_of_alnum h5 (by omega) ha
  · obtain ⟨-, -, h5, h7, ha⟩ := stageAlbum_some hc
    exact validate_of_alnum h5 (by omega) ha
  · have := (stageDirect_some hc).1
    subst this
    rcases hk with hk | hk <;> exact absurd hk (by decide)
  · obtain ⟨-, -, h5, h7, ha⟩ := stageImage_some hc
    exact validate_of_alnum h5 (by omega) ha

/-- Witness for the amended C6. -/
theorem classifier_album_image_id_valid_witness :
    validate_imgur_id "abc1234" = true :=
  classifier_album_image_id_valid "https://imgur.com/abc1234" "image" "abc1234"
    (by decide) (Or.inr rfl)

/-- A string in the spec's full-string IdentifierShape grammar is also
accepted by the code's anchored shape regex. -/
theorem matchIdShape_of_spec {s : String} (h : specIdentifierShape s = true) :
    matchIdShape s.data = true := by
  rw [specIdentifierShape] at h
  split at h
  · rename_i hlen
    have hsplit : s.data.takeWhile isAlnumA ++ s.data.dropWhile isAlnumA = s.data :=
      List.takeWhile_append_dropWhile isAlnumA s.data
    have hall : (s.data.takeWhile isAlnumA).all isAlnumA = true := takeWhile_all _ _
    have hafter : afterCore (s.data.dropWhile isAlnumA) = true := by
      split at h
      · rename_i heq
        rw [heq]
        decide
      · rename_i c e heq
        split at h
        · rename_i hce
          obtain ⟨hc, h3, h4, hae⟩ := hce
          rw [heq, hc, afterCore]
          have her : extRun e.length e = true := by
            rw [extRun, List.take_length, List.drop_length]
            simp [hae, endDollar]
          have hdot : extDot ('.' :: e) = true := by
            rw [extDot]
            have hk : e.length = 3 ∨ e.length = 4 := by omega
            rcases hk with hk | hk <;> rw [hk] at her <;> simp [her]
          simp [hdot]
        · exact absurd h (by simp)
    have hcore : coreK (s.data.takeWhile isAlnumA).length
        (s.data.takeWhile isAlnumA ++ s.data.dropWhile isAlnumA) = true := by
      rw [coreK, take_len_append, drop_len_append]
      simp [hall, hafter]
    rw [hsplit] at hcore
    obtain ⟨h5, h8⟩ := hlen
    have hk : (s.data.takeWhile isAlnumA).length = 5 ∨
        (s.data.takeWhile isAlnumA).length = 6 ∨
        (s.data.takeWhile isAlnumA).length = 7 ∨
        (s.data.takeWhile isAlnumA).length = 8 := by omega
    rw [matchIdShape]
    rcases hk with hk | hk | hk | hk <;> rw [hk] at hcore <;> simp [hcore]
  · exact absurd h (by simp)

/-- C9: the defense-in-depth check of `validate_imgur_id` is redundant —
no string in the full-string IdentifierShape grammar contains `..`, `/` or a
backslash, and removing the second check leaves `validate_imgur_id`
unchanged as a function on all strings. -/
theorem traversal_check_redundant :
    (∀ s : String, specIdentifierShape s = true →
        containsSub s.data "..".data = false ∧ containsSub s.data "/".data = false ∧
        containsSub s.data "\\".data = false) ∧
    (∀ s : String, validate_imgur_id_noTraversal s = validate_imgur_id s) := by
  constructor
  · intro s hs
    exact matchIdShape_no_traversal (matchIdShape_of_spec hs)
  · intro s
    rw [validate_imgur_id_noTraversal, validate_imgur_id]
    cases hm : matchIdShape s.data with
    | false => simp
    | true =>
      obtain ⟨h1, h2, h3⟩ := matchIdShape_no_traversal hm
      simp [h1, h2, h3]

/-- Witness for C9 at a concrete identifier. -/
theorem traversal_check_redundant_witness :
    containsSub ("abc12" : String).data "..".data = false ∧
    containsSub ("abc12" : String).data "/".data = false ∧
    containsSub ("abc12" : String).data "\\".data = false :=
  traversal_check_redundant.1 "abc12" (by decide)

/-- C5: `validate_imgur_id` is *not* a full-string match of the shape
grammar: Python's `$` also matches just before a trailing newline, so
`"abc12\n"` is accepted by the code although the entire string does not
conform to the 5–8 alphanumeric (+ optional extension) shape. -/
theorem validate_trailing_newline_bug :
    validate_imgur_id "abc12\n" = true ∧ specIdentifierShape "abc12\n" = false := by
  refine ⟨by decide, by decide⟩

/-- C4 counterexample: with every outbound request failing, the plain-image
handler issues exactly one fetch — to the metadata API — rather than one CDN
probe per candidate extension `jpg, png, gif, jpeg, webp`. -/
theorem serve_image_no_probe_counterexample :
    (serve_image (fun _ => none) "abc1234").1 =
      ["https://api.imgur.com/post/v1/media/abc1234"] ∧
    (serve_image (fun _ => none) "abc1234").1.length = 1 ∧
    (serve_image (fun _ => none) "abc1234").1 ≠
      ["https://i.imgur.com/abc1234.jpg", "https://i.imgur.com/abc1234.png",
       "https://i.imgur.com/abc1234.gif", "https://i.imgur.com/abc1234.jpeg",
       "https://i.imgur.com/abc1234.webp"] ∧
    (serve_image (fun _ => none) "abc1234").2 = ServeOutcome.notFound := by
  refine ⟨by decide, by decide, by decide, by decide⟩

/-- C4 amended: for a valid plain-image identifier the handler performs
exactly one outbound fetch, to the metadata API endpoint for that id (there
is no CDN extension-probing loop), and a failed fetch is a terminal not-found
outcome. -/
theorem serve_image_single_fetch (fetch : String → Option MediaDoc) (imgur_id : String)
    (hv : validate_imgur_id imgur_id = true) :
    (serve_image fetch imgur_id).1 = [media_api_url imgur_id] ∧
    (fetch (media_api_url imgur_id) = none →
      (serve_image fetch imgur_id).2 = ServeOutcome.notFound) := by
  rw [serve_image, hv]
  cases hf : fetch (media_api_url imgur_id) with
  | none => simp
  | some doc =>
    cases hm : doc.media with
    | nil => simp [hm]
    | cons m t => simp [hm]

/-- Witness for the amended C4. -/
theorem serve_image_single_fetch_witness :
    (serve_image (fun _ => none) "zz99aa1").1 = [media_api_url "zz99aa1"] :=
  (serve_image_single_fetch (fun _ => none) "zz99aa1" (by decide)).1

end ImgurProxy
